import Mathlib

/-!
Verification of the content model, quiz engine, generation orchestrator and
audio decode pipeline of the course-generation application.  All definitions
are shallow embeddings of the TypeScript source (CourseBuilder.tsx,
InteractivePlayer.tsx, LMSPlayer.tsx, App.tsx, geminiService.ts); theorems
state and settle the specification claims about them.
-/

/-- Data model: a quiz question (types.ts, `QuizQuestion`). -/
structure QuizQuestion where
  question : String
  options : List String
  correctAnswers : List ℕ
deriving DecidableEq, Repr

/-- Data model: one step of an interactive lesson (types.ts, `LessonStep`). -/
structure LessonStep where
  id : String
  title : String
  explanation : String
  keyPoints : List String
  imagePrompt : String
  imageUrl : Option String
  audioData : Option String
deriving DecidableEq, Repr

/-- Data model: a standalone interactive lesson (types.ts, `InteractiveLesson`). -/
structure InteractiveLesson where
  id : String
  topic : String
  steps : List LessonStep
  quiz : List QuizQuestion
deriving DecidableEq, Repr

/-- Data model: the lesson type discriminator (types.ts, `Lesson.type`). -/
inductive LessonType where
  | text
  | video
  | quiz
  | interactive
deriving DecidableEq, Repr

/-- Data model: a lesson (types.ts, `Lesson`). -/
structure Lesson where
  id : String
  title : String
  content : String
  type : LessonType
  videoUrl : Option String
  imageUrl : Option String
  quiz : Option (List QuizQuestion)
  interactiveData : Option InteractiveLesson
deriving DecidableEq, Repr

/-- Data model: a module of lessons (types.ts, `Module`; renamed here because
`Module` is taken by the ambient library). -/
structure CourseModule where
  id : String
  title : String
  lessons : List Lesson
deriving DecidableEq, Repr

/-- Data model: a course (types.ts, `Course`). -/
structure Course where
  id : String
  title : String
  description : String
  thumbnail : Option String
  modules : List CourseModule
  teaserVideoUrl : Option String
deriving DecidableEq, Repr

/-! ## Quiz engine (InteractivePlayer.tsx / LMSPlayer.tsx) -/

/-- Per-question correctness check from the `score` reducer in
InteractivePlayer.tsx (lines 102-103):
`answers.length === q.correctAnswers.length && answers.every(a => q.correctAnswers.includes(a))`. -/
def isCorrectAnswer (q : QuizQuestion) (answers : List ℕ) : Bool :=
  answers.length == q.correctAnswers.length &&
    answers.all (fun a => q.correctAnswers.contains a)

/-- The quiz score from InteractivePlayer.tsx lines 99-106:
`lesson.quiz.reduce((acc, q, idx) => acc + (isCorrect ? 1 : 0), 0)` where the
answers for question `idx` default to `[]` when absent (`userAnswers[idx] || []`).
The answers-by-question record is modelled as a total function with default `[]`
already applied. -/
def score (quiz : List QuizQuestion) (userAnswers : ℕ → List ℕ) : ℕ :=
  quiz.enum.foldl
    (fun acc p => acc + (if isCorrectAnswer p.2 (userAnswers p.1) then 1 else 0)) 0

/-- Shared selected-index update expression appearing in `toggleAnswer`
(InteractivePlayer.tsx lines 92-94, LMSPlayer.tsx lines 94-96) and in
`toggleQuizAnswer` (CourseBuilder.tsx lines 213-215):
`current.includes(o) ? current.filter(i => i !== o) : [...current, o]`. -/
def toggleIndexList (current : List ℕ) (o : ℕ) : List ℕ :=
  if current.contains o then current.filter (fun i => i != o)
  else current ++ [o]

/-- Learner-side answer toggle (InteractivePlayer.tsx lines 88-97, identical in
LMSPlayer.tsx lines 90-99).  The `Record<number, number[]>` is modelled as
`ℕ → Option (List ℕ)`; a missing key is `none` and is read as `[]`
(`prev[qIdx] || []`).  The `quizSubmitted` early return is the first branch. -/
def toggleAnswer (quizSubmitted : Bool) (prev : ℕ → Option (List ℕ))
    (qIdx oIdx : ℕ) : ℕ → Option (List ℕ) :=
  if quizSubmitted then prev
  else
    let current := (prev qIdx).getD []
    let updated := toggleIndexList current oIdx
    fun j => if j = qIdx then some updated else prev j

/-! ## Audio decode pipeline (geminiService.ts, `decodeAudioData`) -/

/-- Signed 16-bit little-endian sample assembled from two bytes, as read by an
`Int16Array` element access: the unsigned value `lo + 256 * hi` reinterpreted
in two's complement. -/
def int16OfBytes (lo hi : ℕ) : ℤ :=
  if lo + 256 * hi < 32768 then (lo + 256 * hi : ℤ)
  else (lo + 256 * hi : ℤ) - 65536

/-- The `Int16Array` view over the byte buffer (`new Int16Array(data.buffer)`):
element `i` is the little-endian 16-bit value of bytes `2i, 2i+1`.  A trailing
odd byte is never viewed, because the constructor rejects odd byte lengths
(see `decodeAudioData`). -/
def toInt16List : List ℕ → List ℤ
  | lo :: hi :: rest => int16OfBytes lo hi :: toInt16List rest
  | _ => []

/-- Error raised by `new Int16Array(data.buffer)` when the buffer's byte
length is odd. -/
def errOddByteLength : String :=
  "RangeError: byte length of Int16Array should be a multiple of 2"

/-- Error raised by `ctx.createBuffer` when the requested channel count or
converted frame length is zero. -/
def errZeroBuffer : String :=
  "NotSupportedError: AudioContext.createBuffer requires nonzero channels and frames"

/-- Shallow embedding of `decodeAudioData` (geminiService.ts lines 74-91).
The JS code computes `frameCount = dataInt16.length / numChannels` as a real
number; `ctx.createBuffer` converts it to an unsigned integer by truncation
(floor for nonnegative values), and loop iterations beyond the created
`Float32Array` length are silent no-op writes, so the observable channel data
has exactly `⌊dataInt16.length / numChannels⌋` frames — here Nat division.
The two error branches are the host exceptions: `new Int16Array(data.buffer)`
throws on an odd byte length, and `createBuffer` throws when the channel count
or the truncated frame count is zero.  The sample formula is the loop body
`channelData[i] = dataInt16[i * numChannels + channel] / 32768.0`. -/
def decodeAudioData (data : List ℕ) (numChannels : ℕ) :
    Except String (List (List ℚ)) :=
  if data.length % 2 ≠ 0 then .error errOddByteLength
  else if numChannels = 0 ∨ (toInt16List data).length / numChannels = 0 then
    .error errZeroBuffer
  else
    .ok ((List.range numChannels).map (fun channel =>
      (List.range ((toInt16List data).length / numChannels)).map (fun i =>
        ((toInt16List data).getD (i * numChannels + channel) 0 : ℚ) / 32768)))

/-! ## Content-tree mutation algebra (CourseBuilder.tsx) -/

/-- Lesson lookup used at the top of `generateLessonBody`
(CourseBuilder.tsx line 139):
`course.modules.find(m => m.id === moduleId)?.lessons.find(l => l.id === lessonId)`. -/
def findLesson (course : Course) (moduleId lessonId : String) : Option Lesson :=
  (course.modules.find? (fun m => m.id == moduleId)).bind
    (fun m => m.lessons.find? (fun l => l.id == lessonId))

/-- The module/lesson map pattern shared by every CourseBuilder mutation:
`modules.map(m => m.id === moduleId ? { ...m, lessons: m.lessons.map(l => l.id === lessonId ? f(l) : l) } : m)`. -/
def setLessonPayload (course : Course) (moduleId lessonId : String)
    (f : Lesson → Lesson) : Course :=
  { course with modules := course.modules.map (fun m =>
      if m.id == moduleId then
        { m with lessons := m.lessons.map (fun l =>
            if l.id == lessonId then f l else l) }
      else m) }

/-- The per-lesson update of `toggleQuizAnswer` (CourseBuilder.tsx lines
208-219): when the lesson has a quiz (`l.id === lessonId && l.quiz`), the
addressed question's `correctAnswers` receives the symmetric-difference
update `toggleIndexList`.  An out-of-range `qIdx` (a JS runtime type error,
outside the valid-index domain of the claims) is modelled as leaving the
lesson unchanged. -/
def toggleQuizLesson (qIdx oIdx : ℕ) (l : Lesson) : Lesson :=
  match l.quiz with
  | some quiz =>
      match quiz.get? qIdx with
      | some q => { l with quiz := some (quiz.set qIdx
          { q with correctAnswers := toggleIndexList q.correctAnswers oIdx }) }
      | none => l
  | none => l

/-- Authoring-side correct-answer toggle, `toggleQuizAnswer`
(CourseBuilder.tsx lines 202-223), expressed through the shared
module/lesson map pattern. -/
def toggleQuizAnswer (course : Course) (moduleId lessonId : String)
    (qIdx oIdx : ℕ) : Course :=
  setLessonPayload course moduleId lessonId (toggleQuizLesson qIdx oIdx)

/-- The fresh question appended by `addQuizQuestion`
(CourseBuilder.tsx lines 227-231). -/
def newQuizQuestion : QuizQuestion :=
  { question := "New Question"
    options := ["Option 1", "Option 2"]
    correctAnswers := [0] }

/-- Authoring-side question insertion, `addQuizQuestion`
(CourseBuilder.tsx lines 225-242): the addressed lesson's quiz becomes
`[...(l.quiz || []), newQuestion]`, creating the sequence when absent. -/
def addQuizQuestion (course : Course) (moduleId lessonId : String) : Course :=
  setLessonPayload course moduleId lessonId
    (fun l => { l with quiz := some (l.quiz.getD [] ++ [newQuizQuestion]) })

/-- Reader for the correctAnswers of the question at `qIdx` of the quiz of
the first module/lesson matching the given ids. -/
def correctAnswersAt (course : Course) (moduleId lessonId : String)
    (qIdx : ℕ) : Option (List ℕ) :=
  ((findLesson course moduleId lessonId).bind (fun l => l.quiz)).bind
    (fun quiz => (quiz.get? qIdx).map (fun q => q.correctAnswers))

/-! ## Generation orchestrator (CourseBuilder.tsx / App.tsx) -/

/-- Orchestrator state for course-mode generation: the in-flight set
`generatingLessonIds` (CourseBuilder.tsx line 27) and the global
`loadingStatus` banner text (line 20, empty string when idle). -/
structure GenState where
  generatingLessonIds : Finset String
  loadingStatus : String
deriving DecidableEq

/-- Entry of `generateLessonBody` (CourseBuilder.tsx lines 142-143): the
lesson id is added to the in-flight set and the status banner is set. -/
def startGeneration (s : GenState) (lessonId title : String) : GenState :=
  { generatingLessonIds := insert lessonId s.generatingLessonIds
    loadingStatus := "AI is crafting: " ++ title ++ "..." }

/-- The `finally` block of `generateLessonBody` (CourseBuilder.tsx lines
181-188), executed on success and on failure alike: the lesson id is deleted
from the in-flight set and the status banner is cleared. -/
def finishGeneration (s : GenState) (lessonId : String) : GenState :=
  { generatingLessonIds := s.generatingLessonIds.erase lessonId
    loadingStatus := "" }

/-- The entry path of `generateLessonBody` (CourseBuilder.tsx lines 137-143)
as observed on the orchestrator state.  The function returns early only when
the course or the addressed lesson is missing; otherwise it unconditionally
adds the lesson id to the in-flight set, sets the status banner and issues
the service request — the body never reads `generatingLessonIds`.  Only the
sidebar generate button (line 442) is disabled while the lesson is in
flight; the editor pane's Regenerate Clip control (lines 584-589) invokes
`generateLessonBody` with no disabled guard, so this entry is reachable
while the lesson id is already in flight.  The returned flag records
whether a service request was started by the call. -/
def generateLessonBodyEntry (s : GenState) (lessonExists : Bool)
    (lessonId title : String) : GenState × Bool :=
  if !lessonExists then (s, false)
  else (startGeneration s lessonId title, true)

/-- Course-mode lesson-body generation, `generateLessonBody`
(CourseBuilder.tsx lines 137-189), as a course transformer.  The service
calls are oracles: `teaserResult` for `generateCourseTeaser` (video lessons),
`quizResult`/`textResult` for `generateLessonContent`.  A missing path
returns the course unchanged; a service error is swallowed by the
`catch` (only an alert), leaving the course untouched. -/
def generateLessonBody (course : Course) (moduleId lessonId : String)
    (teaserResult : Except String String)
    (quizResult : Except String (List QuizQuestion))
    (textResult : Except String String) : Course :=
  match findLesson course moduleId lessonId with
  | none => course
  | some lesson =>
    match lesson.type with
    | .video =>
        match teaserResult with
        | .error _ => course
        | .ok url => setLessonPayload course moduleId lessonId
            (fun l => { l with videoUrl := some url })
    | .quiz =>
        match quizResult with
        | .error _ => course
        | .ok qs => setLessonPayload course moduleId lessonId
            (fun l => { l with quiz := some qs })
    | _ =>
        match textResult with
        | .error _ => course
        | .ok s => setLessonPayload course moduleId lessonId
            (fun l => { l with content := s })

/-- The sequential per-step asset loop of `startInteractiveGeneration`
(App.tsx lines 751-762): for step `i`, request an illustration then a
narration, attach both, and recurse; the first service error aborts the
whole loop.  `illustrResult i` and `narrResult i` are the oracle outcomes of
the `i`-th `generateIllustration` / `generateNarration` calls. -/
def attachAssetsFrom (illustrResult narrResult : ℕ → Except String String) :
    List LessonStep → ℕ → Except String (List LessonStep)
  | [], _ => .ok []
  | step :: rest, i =>
      match illustrResult i with
      | .error e => .error e
      | .ok imageUrl =>
          match narrResult i with
          | .error e => .error e
          | .ok audioData =>
              match attachAssetsFrom illustrResult narrResult rest (i + 1) with
              | .error e => .error e
              | .ok tail =>
                  .ok ({ step with imageUrl := some imageUrl
                                   audioData := some audioData } :: tail)

/-- Interactive-mode generation, `startInteractiveGeneration`
(App.tsx lines 740-774), as a function from service outcomes to the surfaced
lesson: `none` models the `catch` path (alert only, `setInteractiveLesson`
never called, so no partial lesson is surfaced); `some` models the fully
assembled lesson passed to `setInteractiveLesson`. -/
def runInteractiveGeneration (structureResult : Except String InteractiveLesson)
    (illustrResult narrResult : ℕ → Except String String) :
    Option InteractiveLesson :=
  match structureResult with
  | .error _ => none
  | .ok lesson =>
      match attachAssetsFrom illustrResult narrResult lesson.steps 0 with
      | .error _ => none
      | .ok stepsWithAssets => some { lesson with steps := stepsWithAssets }

/-- The sequence of values published through `setGenProgress` during one
interactive-mode generation that completes successfully
(App.tsx lines 743, 748, 761): 10 after issuing the structure request, 40
once the structure result is in, then `40 + (i + 1) * (60 / totalSteps)`
after the assets of step `i` land. -/
def progressTrace (totalSteps : ℕ) : List ℚ :=
  10 :: 40 :: (List.range totalSteps).map
    (fun (i : ℕ) => 40 + ((i : ℚ) + 1) * (60 / (totalSteps : ℚ)))

/-! ## Playback controller (InteractivePlayer.tsx lines 16-86) -/

/-- Playback state: `isPlaying` (line 16) and `audioSourceRef` (line 20),
plus the ghost list `active` of sources that have been started and not yet
stopped or ended — the real-world resource the exclusivity claim is about. -/
structure PlayerState where
  isPlaying : Bool
  active : List String
  audioSourceRef : Option String
deriving DecidableEq

/-- The `stopAudio` handler (InteractivePlayer.tsx lines 32-37; identical
`stopNarration` in LMSPlayer.tsx lines 33-38): when a source is referenced it
is stopped (removed from `active`) and the reference cleared; with no
referenced source the call does nothing. -/
def stopAudio (s : PlayerState) : PlayerState :=
  match s.audioSourceRef with
  | some clip =>
      { s with active := s.active.erase clip, audioSourceRef := none }
  | none => s

/-- The `toggleAudio` handler (InteractivePlayer.tsx lines 55-86): if
playing, stop; if the step has no audio, return; if decode fails, the catch
leaves the state unchanged; otherwise `stopAudio()` runs strictly before
`source.start()`, then the new source is referenced and marked playing. -/
def toggleAudio (s : PlayerState) (hasAudio decodeOk : Bool)
    (newClip : String) : PlayerState :=
  if s.isPlaying then
    { stopAudio s with isPlaying := false }
  else if !hasAudio then s
  else if !decodeOk then s
  else
    { isPlaying := true
      active := (stopAudio s).active ++ [newClip]
      audioSourceRef := some newClip }

/-- The `source.onended` callback (InteractivePlayer.tsx line 79) combined
with the natural end of the clip: the clip stops being active and
`isPlaying` flips to false; the stale reference is kept (the source nulls it
only in `stopAudio`). -/
def onEnded (s : PlayerState) (clip : String) : PlayerState :=
  { s with isPlaying := false, active := s.active.erase clip }

/-- Exclusive-resource invariant: at most one active source, and any active
source is the referenced one. -/
def PlayerInv (s : PlayerState) : Prop :=
  s.active.length ≤ 1 ∧ ∀ c ∈ s.active, s.audioSourceRef = some c

/-! ## Helper lemmas for the quiz engine -/

lemma foldl_add_ite_count {α : Type} (p : α → Bool) :
    ∀ (l : List α) (n : ℕ),
      l.foldl (fun acc a => acc + (if p a then 1 else 0)) n = n + l.countP p := by
  intro l
  induction l with
  | nil => intro n; simp
  | cons a t ih =>
      intro n
      simp only [List.foldl_cons, List.countP_cons, ih]
      by_cases h : p a
      · simp [h]; omega
      · simp [h]

lemma isCorrectAnswer_iff_toFinset_eq (q : QuizQuestion) (answers : List ℕ)
    (ha : answers.Nodup) (hq : q.correctAnswers.Nodup) :
    isCorrectAnswer q answers = true ↔
      answers.toFinset = q.correctAnswers.toFinset := by
  unfold isCorrectAnswer
  rw [Bool.and_eq_true, beq_iff_eq, List.all_eq_true]
  constructor
  · rintro ⟨hlen, hmem⟩
    have hsub : answers.toFinset ⊆ q.correctAnswers.toFinset := by
      intro x hx
      rw [List.mem_toFinset] at hx ⊢
      have := hmem x hx
      simpa using this
    apply Finset.eq_of_subset_of_card_le hsub
    rw [List.toFinset_card_of_nodup ha, List.toFinset_card_of_nodup hq, hlen]
  · intro hset
    constructor
    · have := congrArg Finset.card hset
      rwa [List.toFinset_card_of_nodup ha, List.toFinset_card_of_nodup hq] at this
    · intro a hmem
      have : a ∈ answers.toFinset := List.mem_toFinset.mpr hmem
      rw [hset, List.mem_toFinset] at this
      simpa using this

lemma snd_mem_of_mem_enum {α : Type} {l : List α} {p : ℕ × α}
    (h : p ∈ l.enum) : p.2 ∈ l := by
  obtain ⟨-, -, h3⟩ := List.mem_enumFrom h
  rw [h3]
  exact List.getElem_mem _

/-! ## Claim C1 -/

/-- C1: for every quiz and every duplicate-free answers-by-question assignment
(with duplicate-free `correctAnswers` sets, per the data-model invariant that
`correctAnswers` is a set of indices), the computed score counts exactly the
questions whose selected-option set equals the question's `correctAnswers` set
(so a strict subset or superset scores zero for that question), the total never
exceeds `quiz.length`, and the maximum `quiz.length` is attained exactly when
every question's selection set equals its `correctAnswers` set. -/
theorem score_counts_exact_set_matches (quiz : List QuizQuestion)
    (userAnswers : ℕ → List ℕ)
    (hq : ∀ q ∈ quiz, q.correctAnswers.Nodup)
    (ha : ∀ i, (userAnswers i).Nodup) :
    score quiz userAnswers =
      quiz.enum.countP
        (fun p => decide ((userAnswers p.1).toFinset = p.2.correctAnswers.toFinset))
    ∧ score quiz userAnswers ≤ quiz.length
    ∧ (score quiz userAnswers = quiz.length ↔
        ∀ p ∈ quiz.enum, (userAnswers p.1).toFinset = p.2.correctAnswers.toFinset) := by
  have hcount : score quiz userAnswers =
      quiz.enum.countP (fun p => isCorrectAnswer p.2 (userAnswers p.1)) := by
    unfold score
    rw [foldl_add_ite_count]
    omega
  have hcongr : quiz.enum.countP (fun p => isCorrectAnswer p.2 (userAnswers p.1)) =
      quiz.enum.countP
        (fun p => decide ((userAnswers p.1).toFinset = p.2.correctAnswers.toFinset)) := by
    apply List.countP_congr
    intro p hp
    have hq2 : p.2 ∈ quiz := snd_mem_of_mem_enum hp
    have := isCorrectAnswer_iff_toFinset_eq p.2 (userAnswers p.1)
      (ha p.1) (hq p.2 hq2)
    simp only [decide_eq_true_eq]
    constructor
    · intro h; exact this.mp h
    · intro h; exact this.mpr h
  refine ⟨hcount.trans hcongr, ?_, ?_⟩
  · rw [hcount]
    calc quiz.enum.countP (fun p => isCorrectAnswer p.2 (userAnswers p.1))
        ≤ quiz.enum.length := List.countP_le_length _
      _ = quiz.length := List.enum_length
  · rw [hcount.trans hcongr]
    have hlen : quiz.length = quiz.enum.length := List.enum_length.symm
    rw [hlen]
    rw [List.countP_eq_length]
    constructor
    · intro h p hp
      have := h p hp
      simpa using this
    · intro h p hp
      simpa using h p hp

/-- Witness for C1, instantiating the spec example: one question with
`correctAnswers = [0,2]`; the strict subset `[0]` scores 0, which is at most
the quiz length as the claim theorem states. -/
theorem score_counts_exact_set_matches_witness :
    score [⟨"q", ["a", "b", "c"], [0, 2]⟩] (fun _ => [0]) = 0 ∧
    score [⟨"q", ["a", "b", "c"], [0, 2]⟩] (fun _ => [0]) ≤ 1 := by
  refine ⟨by decide, ?_⟩
  exact (score_counts_exact_set_matches [⟨"q", ["a", "b", "c"], [0, 2]⟩]
    (fun _ => [0]) (by decide) (fun _ => List.nodup_singleton 0)).2.1

/-! ## Helper lemmas for the audio decode pipeline -/

lemma toInt16List_length : ∀ (data : List ℕ),
    (toInt16List data).length = data.length / 2
  | [] => by simp [toInt16List]
  | [_] => by simp [toInt16List]
  | _ :: _ :: rest => by
      rw [toInt16List]
      simp only [List.length_cons, toInt16List_length rest]
      omega

lemma toInt16List_bounds : ∀ (data : List ℕ), (∀ b ∈ data, b < 256) →
    ∀ x ∈ toInt16List data, -32768 ≤ x ∧ x ≤ 32767
  | [] => by intro _ x hx; simp [toInt16List] at hx
  | [_] => by intro _ x hx; simp [toInt16List] at hx
  | lo :: hi :: rest => by
      intro h x hx
      rw [toInt16List] at hx
      rcases List.mem_cons.mp hx with hx | hx
      · subst hx
        have hlo : lo < 256 := h lo (by simp)
        have hhi : hi < 256 := h hi (by simp)
        unfold int16OfBytes
        split <;> constructor <;> omega
      · exact toInt16List_bounds rest (fun b hb => h b (by simp [hb])) x hx

lemma toInt16List_getD_bounds (data : List ℕ) (h : ∀ b ∈ data, b < 256)
    (k : ℕ) :
    -32768 ≤ (toInt16List data).getD k 0 ∧ (toInt16List data).getD k 0 ≤ 32767 := by
  by_cases hk : k < (toInt16List data).length
  · rw [List.getD_eq_getElem _ _ hk]
    exact toInt16List_bounds data h _ (List.getElem_mem _)
  · rw [List.getD_eq_default _ _ (by omega)]
    norm_num

lemma getD_map_range {α : Type} (f : ℕ → α) {n c : ℕ} (h : c < n) (d : α) :
    ((List.range n).map f).getD c d = f c := by
  rw [List.getD_eq_getElem _ _ (by simpa using h)]
  simp

/-! ## Claim C2 -/

/-- C2: on a well-formed byte sequence (byte values, length a whole multiple of
`channelCount * 2` and positive), `decodeAudioData` succeeds and produces
`numChannels` per-channel sample arrays whose frame count is the total number
of 16-bit samples divided by the channel count, where the sample of channel
`c` at frame `i` is `int16At(i * numChannels + c) / 32768`, and every produced
sample lies in `[-1, 1)`. -/
theorem decodeAudioData_pcm16 (data : List ℕ) (numChannels : ℕ)
    (hC : 0 < numChannels) (hdvd : 2 * numChannels ∣ data.length)
    (hpos : 0 < data.length) (hbytes : ∀ b ∈ data, b < 256) :
    ∃ channels,
      decodeAudioData data numChannels = .ok channels
      ∧ channels.length = numChannels
      ∧ (∀ ch ∈ channels, ch.length = data.length / 2 / numChannels)
      ∧ (∀ c, c < numChannels → ∀ i, i < data.length / 2 / numChannels →
          (channels.getD c []).getD i 0
            = ((toInt16List data).getD (i * numChannels + c) 0 : ℚ) / 32768)
      ∧ (∀ ch ∈ channels, ∀ s ∈ ch, -1 ≤ s ∧ s < 1) := by
  obtain ⟨k, hk⟩ := hdvd
  have hk2 : data.length = 2 * (numChannels * k) := by rw [hk]; ring
  have hL2 : data.length % 2 = 0 := by omega
  have hlen : (toInt16List data).length = data.length / 2 := toInt16List_length data
  have hhalf : data.length / 2 = numChannels * k := by omega
  have hfc : data.length / 2 / numChannels = k := by
    rw [hhalf, Nat.mul_div_cancel_left _ hC]
  have hk0 : 0 < k := by
    rcases Nat.eq_zero_or_pos k with h0 | h0
    · subst h0; simp at hk2; omega
    · exact h0
  refine ⟨(List.range numChannels).map (fun channel =>
      (List.range (data.length / 2 / numChannels)).map (fun i =>
        ((toInt16List data).getD (i * numChannels + channel) 0 : ℚ) / 32768)),
      ?_, by simp, ?_, ?_, ?_⟩
  · unfold decodeAudioData
    rw [if_neg (by omega),
      if_neg (by
        rw [hlen, hfc]
        push_neg
        exact ⟨Nat.pos_iff_ne_zero.mp hC, Nat.pos_iff_ne_zero.mp hk0⟩), hlen]
  · intro ch hch
    obtain ⟨c, _, rfl⟩ := List.mem_map.mp hch
    simp
  · intro c hc i hi
    rw [getD_map_range _ hc, getD_map_range _ hi]
  · intro ch hch s hs
    obtain ⟨c, _, rfl⟩ := List.mem_map.mp hch
    obtain ⟨i, _, rfl⟩ := List.mem_map.mp hs
    obtain ⟨hlo, hhi⟩ := toInt16List_getD_bounds data hbytes (i * numChannels + c)
    constructor
    · rw [le_div_iff₀ (by norm_num : (0:ℚ) < 32768)]
      have : (-32768 : ℚ) ≤ ((toInt16List data).getD (i * numChannels + c) 0 : ℚ) := by
        exact_mod_cast hlo
      linarith
    · rw [div_lt_one (by norm_num : (0:ℚ) < 32768)]
      have : ((toInt16List data).getD (i * numChannels + c) 0 : ℚ) ≤ 32767 := by
        exact_mod_cast hhi
      linarith

/-- Witness for C2: the two-frame mono input `[0x00, 0x00, 0xFF, 0x7F]`
decodes to samples `0` and `32767 / 32768`, and satisfies the claim theorem. -/
theorem decodeAudioData_pcm16_witness :
    decodeAudioData [0, 0, 255, 127] 1 = .ok [[0, 32767 / 32768]]
    ∧ ∃ channels,
        decodeAudioData [0, 0, 255, 127] 1 = .ok channels
        ∧ channels.length = 1
        ∧ (∀ ch ∈ channels, ch.length = 2)
        ∧ (∀ c, c < 1 → ∀ i, i < 2 →
            (channels.getD c []).getD i 0
              = ((toInt16List [0, 0, 255, 127]).getD (i * 1 + c) 0 : ℚ) / 32768)
        ∧ (∀ ch ∈ channels, ∀ s ∈ ch, -1 ≤ s ∧ s < 1) := by
  refine ⟨by
    simp only [decodeAudioData, toInt16List, int16OfBytes]
    norm_num [List.range_succ], ?_⟩
  exact decodeAudioData_pcm16 [0, 0, 255, 127] 1 (by decide) ⟨2, rfl⟩
    (by decide) (by decide)

/-! ## Claim C6 -/

/-- C6 counterexample: decoding is not total and the error branch is
reachable — a single-byte input (length not a multiple of
`channelCount * 2`) makes `new Int16Array(data.buffer)` raise rather than
truncate. -/
theorem decodeAudioData_odd_length_raises :
    decodeAudioData [0] 1 = .error errOddByteLength := by rfl

/-- C6 amended: the deterministic trailing-partial-frame truncation only
applies to byte sequences of even length containing at least one complete
frame: there `decodeAudioData` succeeds with exactly
`⌊byteLength / 2 / channelCount⌋` frames per channel and no error.  Byte
sequences of odd length are rejected with an error by the `Int16Array` view
construction (and even-length sequences shorter than one frame are rejected
by buffer creation), so decoding is not total over all byte sequences. -/
theorem decodeAudioData_truncates_even (data : List ℕ) (numChannels : ℕ)
    (heven : data.length % 2 = 0) (hC : 0 < numChannels)
    (hframe : numChannels ≤ data.length / 2) :
    ∃ channels, decodeAudioData data numChannels = .ok channels
      ∧ channels.length = numChannels
      ∧ ∀ ch ∈ channels, ch.length = data.length / 2 / numChannels := by
  have hlen : (toInt16List data).length = data.length / 2 := toInt16List_length data
  have hfc : 0 < data.length / 2 / numChannels :=
    (Nat.one_le_div_iff hC).mpr hframe
  refine ⟨(List.range numChannels).map (fun channel =>
      (List.range (data.length / 2 / numChannels)).map (fun i =>
        ((toInt16List data).getD (i * numChannels + channel) 0 : ℚ) / 32768)),
      ?_, by simp, ?_⟩
  · unfold decodeAudioData
    rw [if_neg (by omega),
      if_neg (by
        rw [hlen]
        push_neg
        exact ⟨Nat.pos_iff_ne_zero.mp hC, Nat.pos_iff_ne_zero.mp hfc⟩), hlen]
  · intro ch hch
    obtain ⟨c, _, rfl⟩ := List.mem_map.mp hch
    simp

/-- Witness for C6 amended: six bytes with two channels (three 16-bit
samples, one complete frame plus a partial one) decode without error to one
frame per channel — the partial frame is truncated. -/
theorem decodeAudioData_truncates_even_witness :
    ∃ channels, decodeAudioData [1, 2, 3, 4, 5, 6] 2 = .ok channels
      ∧ channels.length = 2
      ∧ ∀ ch ∈ channels, ch.length = 1 := by
  exact decodeAudioData_truncates_even [1, 2, 3, 4, 5, 6] 2 (by decide)
    (by decide) (by decide)

/-! ## Claim C3 -/

/-- C3: the claimed rejection is absent from the code — the entry of
`generateLessonBody` never consults the in-flight set, so every call for an
existing lesson starts a service request and re-inserts the lesson id even
when that id is already in `generatingLessonIds` (a call reachable through
the unguarded Regenerate Clip control); in particular the concrete state
whose in-flight set already holds the addressed lesson still starts a
second concurrent request.  Only the completion half of the claim holds:
the `finally` block removes the lesson id and clears the status, on success
and failure alike. -/
theorem generateLessonBody_no_inflight_rejection :
    (∀ (s : GenState) (L title : String),
        (generateLessonBodyEntry s true L title).2 = true
        ∧ L ∈ (generateLessonBodyEntry s true L title).1.generatingLessonIds)
    ∧ (generateLessonBodyEntry ⟨{"l1"}, "AI is crafting: Lesson One..."⟩
        true "l1" "Lesson One").2 = true
    ∧ (∀ (s : GenState) (L : String),
        L ∉ (finishGeneration s L).generatingLessonIds
        ∧ (finishGeneration s L).loadingStatus = "") := by
  refine ⟨?_, rfl, ?_⟩
  · intro s L title
    exact ⟨rfl, Finset.mem_insert_self _ _⟩
  · intro s L
    exact ⟨Finset.not_mem_erase _ _, rfl⟩

/-! ## Claim C4 -/

/-- C4: the published interactive-generation progress values follow the exact
piecewise formula — 10 after issuing the structure request, 40 once structure
assembly is confirmed, `40 + completedSteps * (60 / totalSteps)` after each
step's assets land — and the value 100 is reached exactly when the final
step's assets land (every earlier published value is below 100). -/
theorem progressTrace_formula (totalSteps : ℕ) (h : 0 < totalSteps) :
    (progressTrace totalSteps).getD 0 0 = 10
    ∧ (progressTrace totalSteps).getD 1 0 = 40
    ∧ (∀ j, j < totalSteps →
        (progressTrace totalSteps).getD (j + 2) 0
          = 40 + ((j : ℚ) + 1) * (60 / (totalSteps : ℚ)))
    ∧ (progressTrace totalSteps).length = totalSteps + 2
    ∧ (progressTrace totalSteps).getD (totalSteps + 1) 0 = 100
    ∧ (∀ j, j < totalSteps + 1 → (progressTrace totalSteps).getD j 0 < 100) := by
  have hn : (0 : ℚ) < (totalSteps : ℚ) := by exact_mod_cast h
  have hstep : ∀ j, j < totalSteps →
      (progressTrace totalSteps).getD (j + 2) 0
        = 40 + ((j : ℚ) + 1) * (60 / (totalSteps : ℚ)) := by
    intro j hj
    unfold progressTrace
    rw [List.getD_cons_succ, List.getD_cons_succ, getD_map_range _ hj]
  have hlt : ∀ j, j + 1 < totalSteps →
      40 + ((j : ℚ) + 1) * (60 / (totalSteps : ℚ)) < 100 := by
    intro j hj
    have hjq : (j : ℚ) + 1 < (totalSteps : ℚ) := by exact_mod_cast hj
    have h60 : ((j : ℚ) + 1) * 60 < (totalSteps : ℚ) * 60 := by
      exact mul_lt_mul_of_pos_right hjq (by norm_num)
    have : ((j : ℚ) + 1) * (60 / (totalSteps : ℚ)) < 60 := by
      rw [← mul_div_assoc, div_lt_iff₀ hn]
      linarith
    linarith
  refine ⟨rfl, rfl, hstep, by simp [progressTrace], ?_, ?_⟩
  · obtain ⟨m, rfl⟩ : ∃ m, totalSteps = m + 1 := ⟨totalSteps - 1, by omega⟩
    rw [show m + 1 + 1 = m + 2 from rfl, hstep m (by omega)]
    have hne : ((m : ℚ) + 1) ≠ 0 := by positivity
    push_cast
    field_simp
    ring
  · intro j hj
    match j with
    | 0 => unfold progressTrace; norm_num
    | 1 => unfold progressTrace; norm_num
    | (k + 2) =>
        rw [hstep k (by omega)]
        exact hlt k (by omega)

/-- Witness for C4: the 3-step lesson publishes exactly 10, 40, 60, 80, 100,
and the claim theorem instantiates at 3 steps. -/
theorem progressTrace_formula_witness :
    progressTrace 3 = [10, 40, 60, 80, 100]
    ∧ (progressTrace 3).getD 4 0 = 100 := by
  constructor
  · unfold progressTrace
    norm_num [List.range_succ]
  · exact (progressTrace_formula 3 (by norm_num)).2.2.2.2.1

/-! ## Helper lemmas for the interactive asset loop -/

lemma attachAssetsFrom_ok_iff (illustrResult narrResult : ℕ → Except String String)
    (steps : List LessonStep) : ∀ (k : ℕ),
    (∃ out, attachAssetsFrom illustrResult narrResult steps k = .ok out) ↔
      ∀ j, j < steps.length →
        (∃ u, illustrResult (k + j) = .ok u)
        ∧ (∃ a, narrResult (k + j) = .ok a) := by
  induction steps with
  | nil => intro k; simp [attachAssetsFrom]
  | cons step rest ih =>
      intro k
      rw [attachAssetsFrom]
      cases hill : illustrResult k with
      | error e =>
          constructor
          · rintro ⟨out, hout⟩
            simp at hout
          · intro hall
            exfalso
            obtain ⟨u, hu⟩ := (hall 0 (by simp)).1
            rw [Nat.add_zero, hill] at hu
            simp at hu
      | ok url =>
          cases hnarr : narrResult k with
          | error e =>
              constructor
              · rintro ⟨out, hout⟩
                simp at hout
              · intro hall
                exfalso
                obtain ⟨a, ha⟩ := (hall 0 (by simp)).2
                rw [Nat.add_zero, hnarr] at ha
                simp at ha
          | ok audio =>
              cases hrest : attachAssetsFrom illustrResult narrResult rest (k + 1) with
              | error e =>
                  have ihk := ih (k + 1)
                  rw [hrest] at ihk
                  constructor
                  · rintro ⟨out, hout⟩
                    simp at hout
                  · intro hall
                    exfalso
                    obtain ⟨out, hout⟩ := ihk.mpr (fun j hj => by
                      have := hall (j + 1) (by simp; omega)
                      rwa [show k + (j + 1) = k + 1 + j by omega] at this)
                    simp at hout
              | ok tail =>
                  have ihk := ih (k + 1)
                  rw [hrest] at ihk
                  constructor
                  · intro _ j hj
                    match j with
                    | 0 =>
                        exact ⟨⟨url, by rw [Nat.add_zero, hill]⟩,
                          ⟨audio, by rw [Nat.add_zero, hnarr]⟩⟩
                    | j' + 1 =>
                        have hj' : j' < rest.length := by simp at hj; omega
                        have := ihk.mp ⟨tail, rfl⟩ j' hj'
                        rwa [show k + (j' + 1) = k + 1 + j' by omega]
                  · intro _
                    exact ⟨_, rfl⟩

/-! ## Claim C5 -/

/-- C5: a failed generation leaves content state exactly as before the
attempt — in course mode a `generateLessonBody` whose service call errors
returns the course unchanged (existing payloads and the rest of the tree
intact), and in interactive mode a lesson is surfaced exactly when the
structure request and every step's illustration and narration requests all
succeed, so any step-asset failure fails the whole attempt with no partial
lesson surfaced. -/
theorem generation_failure_preserves_state :
    (∀ (course : Course) (moduleId lessonId e1 e2 e3 : String),
        generateLessonBody course moduleId lessonId
          (.error e1) (.error e2) (.error e3) = course)
    ∧ (∀ (e : String) (illustrResult narrResult : ℕ → Except String String),
        runInteractiveGeneration (.error e) illustrResult narrResult = none)
    ∧ (∀ (lesson : InteractiveLesson)
        (illustrResult narrResult : ℕ → Except String String),
        (runInteractiveGeneration (.ok lesson) illustrResult narrResult).isSome
          = true
          ↔ ∀ i, i < lesson.steps.length →
              (∃ u, illustrResult i = .ok u) ∧ (∃ a, narrResult i = .ok a)) := by
  refine ⟨?_, ?_, ?_⟩
  · intro course mid lid e1 e2 e3
    unfold generateLessonBody
    cases hfind : findLesson course mid lid with
    | none => rfl
    | some lesson =>
        obtain ⟨lid2, lt2, lc2, ty, lv2, li2, lq2, lid3⟩ := lesson
        cases ty <;> rfl
  · intro e illustrResult narrResult
    rfl
  · intro lesson illustrResult narrResult
    have key := attachAssetsFrom_ok_iff illustrResult narrResult lesson.steps 0
    simp only [runInteractiveGeneration]
    cases hres : attachAssetsFrom illustrResult narrResult lesson.steps 0 with
    | error e =>
        rw [hres] at key
        constructor
        · intro hsome
          simp at hsome
        · intro hall
          exfalso
          obtain ⟨out, hout⟩ := key.mpr (fun j hj => by simpa using hall j hj)
          simp at hout
    | ok stepsWithAssets =>
        rw [hres] at key
        constructor
        · intro _ i hi
          simpa using key.mp ⟨stepsWithAssets, rfl⟩ i hi
        · intro _
          simp

/-- Witness for C5: a concrete one-lesson course is returned unchanged when
every service oracle errors. -/
theorem generation_failure_preserves_state_witness :
    generateLessonBody
      ⟨"c1", "T", "D", none,
        [⟨"m1", "M", [⟨"l1", "L", "old content", .text, none, none, none, none⟩]⟩],
        none⟩
      "m1" "l1" (.error "boom") (.error "boom") (.error "boom")
    = ⟨"c1", "T", "D", none,
        [⟨"m1", "M", [⟨"l1", "L", "old content", .text, none, none, none, none⟩]⟩],
        none⟩ :=
  generation_failure_preserves_state.1 _ "m1" "l1" "boom" "boom" "boom"

/-! ## Helper lemmas for the content-tree operations -/

lemma find?_map_of_pred_eq {α : Type} (f : α → α) (p : α → Bool)
    (hp : ∀ a, p (f a) = p a) : ∀ (l : List α),
    (l.map f).find? p = (l.find? p).map f
  | [] => by simp
  | a :: t => by
      by_cases h : p a = true
      · rw [List.map_cons, List.find?_cons_of_pos _ (by rw [hp]; exact h),
          List.find?_cons_of_pos _ h]
        simp
      · rw [List.map_cons,
          List.find?_cons_of_neg _ (by rw [hp]; simpa using h),
          List.find?_cons_of_neg _ h, find?_map_of_pred_eq f p hp t]

lemma findLesson_setLessonPayload (course : Course) (mid lid : String)
    (g : Lesson → Lesson) (hg : ∀ l, (g l).id = l.id)
    (l : Lesson) (h : findLesson course mid lid = some l) :
    findLesson (setLessonPayload course mid lid g) mid lid = some (g l) := by
  have hGl : ∀ l', (((if l'.id == lid then g l' else l').id == lid))
      = (l'.id == lid) := by
    intro l'
    by_cases hl' : (l'.id == lid) = true
    · simp [hl', hg]
    · simp [hl']
  have hpm : ∀ m : CourseModule,
      (((if m.id == mid then
          { m with lessons := (m.lessons.map (fun l => if l.id == lid then g l else l)) }
        else m)).id == mid) = (m.id == mid) := by
    intro m
    by_cases hm2 : (m.id == mid) = true
    · simp [hm2]
    · simp [hm2]
  have hmod : (setLessonPayload course mid lid g).modules
      = course.modules.map (fun m =>
          if m.id == mid then
            { m with lessons := (m.lessons.map (fun l => if l.id == lid then g l else l)) }
          else m) := rfl
  unfold findLesson at h ⊢
  rw [hmod, find?_map_of_pred_eq _ _ hpm]
  cases hm : course.modules.find? (fun m => m.id == mid) with
  | none => rw [hm] at h; simp at h
  | some m =>
      rw [hm] at h
      simp only [Option.some_bind] at h
      have hpmm : (m.id == mid) = true := by
        have := List.find?_some hm
        exact this
      simp only [Option.map_some', Option.some_bind, hpmm, if_true]
      rw [find?_map_of_pred_eq _ _ hGl, h]
      have hlid : (l.id == lid) = true := by
        have := List.find?_some h
        exact this
      have hlid2 : l.id = lid := by simpa using hlid
      simp [hlid2]

lemma toggleQuizLesson_id (qIdx oIdx : ℕ) (l : Lesson) :
    (toggleQuizLesson qIdx oIdx l).id = l.id := by
  cases hq : l.quiz with
  | none => simp [toggleQuizLesson, hq]
  | some quiz =>
      cases hqq : quiz[qIdx]? with
      | none => simp [toggleQuizLesson, hq, hqq]
      | some q => simp [toggleQuizLesson, hq, hqq]

lemma correctAnswersAt_toggleQuizAnswer (course : Course) (mid lid : String)
    (qIdx oIdx : ℕ) (ans : List ℕ)
    (h : correctAnswersAt course mid lid qIdx = some ans) :
    correctAnswersAt (toggleQuizAnswer course mid lid qIdx oIdx) mid lid qIdx
      = some (toggleIndexList ans oIdx) := by
  unfold correctAnswersAt at h
  cases hfl : findLesson course mid lid with
  | none => rw [hfl] at h; simp at h
  | some l =>
      rw [hfl] at h
      simp only [Option.some_bind] at h
      cases hq : l.quiz with
      | none => rw [hq] at h; simp at h
      | some quiz =>
          rw [hq] at h
          simp only [Option.some_bind] at h
          cases hqq : quiz.get? qIdx with
          | none => rw [hqq] at h; simp at h
          | some q =>
              rw [hqq] at h
              have hans : q.correctAnswers = ans := by simpa using h
              have hlt : qIdx < quiz.length := (List.get?_eq_some.mp hqq).1
              have hfl' := findLesson_setLessonPayload course mid lid
                (toggleQuizLesson qIdx oIdx) (toggleQuizLesson_id qIdx oIdx)
                l hfl
              unfold correctAnswersAt toggleQuizAnswer
              rw [hfl']
              simp only [Option.some_bind]
              unfold toggleQuizLesson
              simp only [hq, hqq]
              simp only [Option.some_bind]
              rw [List.get?_eq_getElem?, List.getElem?_set_eq_of_lt _ hlt]
              simp [hans]

lemma contains_iff_mem_nat (l : List ℕ) (o : ℕ) :
    l.contains o = true ↔ o ∈ l := by
  simp [List.contains]

lemma toggleIndexList_nodup (current : List ℕ) (o : ℕ) (h : current.Nodup) :
    (toggleIndexList current o).Nodup := by
  unfold toggleIndexList
  by_cases hc : current.contains o = true
  · rw [if_pos hc]
    exact h.filter _
  · rw [if_neg hc]
    rw [List.nodup_append]
    refine ⟨h, List.nodup_singleton o, ?_⟩
    intro a ha hao
    rw [List.mem_singleton] at hao
    subst hao
    exact hc ((contains_iff_mem_nat current a).mpr ha)

lemma toggleIndexList_involutive_toFinset (ans : List ℕ) (o : ℕ) :
    (toggleIndexList (toggleIndexList ans o) o).toFinset = ans.toFinset := by
  by_cases h : o ∈ ans
  · have h1 : toggleIndexList ans o = ans.filter (fun i => i != o) := by
      unfold toggleIndexList
      rw [if_pos ((contains_iff_mem_nat ans o).mpr h)]
    have h2 : (ans.filter (fun i => i != o)).contains o = false := by
      rw [← Bool.not_eq_true]
      intro hc
      have := (contains_iff_mem_nat _ o).mp hc
      rw [List.mem_filter] at this
      simp at this
    rw [h1]
    unfold toggleIndexList
    rw [h2]
    simp only [Bool.false_eq_true, if_false]
    ext a
    simp only [List.mem_toFinset, List.mem_append, List.mem_filter,
      List.mem_singleton]
    by_cases ha : a = o
    · subst ha; simp [h]
    · simp [ha]
  · have h1 : toggleIndexList ans o = ans ++ [o] := by
      unfold toggleIndexList
      rw [if_neg (by rw [contains_iff_mem_nat]; exact h)]
    have h2 : (ans ++ [o]).contains o = true := by
      rw [contains_iff_mem_nat]
      simp
    rw [h1]
    unfold toggleIndexList
    rw [h2]
    simp only [if_true]
    have h3 : (ans ++ [o]).filter (fun i => i != o) = ans := by
      rw [List.filter_append]
      have : ans.filter (fun i => i != o) = ans :=
        List.filter_eq_self.mpr (fun a ha => by
          simp only [bne_iff_ne, ne_eq, decide_eq_true_eq]
          intro hcontra
          exact h (hcontra ▸ ha))
      simp [this]
    rw [h3]

/-! ## Claim C7 -/

/-- C7: `toggleQuizAnswer` is an involution on the correctAnswers set — for
every course, addressed module and lesson (with a quiz) and valid question
index, toggling the same (question, option) pair twice yields a
correctAnswers set equal to the original (one application removes the index
if present and appends it if absent). -/
theorem toggleQuizAnswer_involutive (course : Course) (mid lid : String)
    (qIdx oIdx : ℕ) (ans : List ℕ)
    (h : correctAnswersAt course mid lid qIdx = some ans) :
    ∃ ans2,
      correctAnswersAt
        (toggleQuizAnswer (toggleQuizAnswer course mid lid qIdx oIdx)
          mid lid qIdx oIdx) mid lid qIdx = some ans2
      ∧ ans2.toFinset = ans.toFinset := by
  have h1 := correctAnswersAt_toggleQuizAnswer course mid lid qIdx oIdx ans h
  have h2 := correctAnswersAt_toggleQuizAnswer _ mid lid qIdx oIdx _ h1
  exact ⟨_, h2, toggleIndexList_involutive_toFinset ans oIdx⟩

/-- Witness for C7: a concrete course whose sole lesson's first question has
`correctAnswers = [0, 2]`; toggling (0, 1) twice gives a set equal to the
original. -/
theorem toggleQuizAnswer_involutive_witness :
    ∃ ans2,
      correctAnswersAt
        (toggleQuizAnswer
          (toggleQuizAnswer
            ⟨"c1", "T", "D", none,
              [⟨"m1", "M", [⟨"l1", "L", "", .quiz, none, none,
                some [⟨"Q", ["a", "b", "c"], [0, 2]⟩], none⟩]⟩],
              none⟩
            "m1" "l1" 0 1) "m1" "l1" 0 1) "m1" "l1" 0 = some ans2
      ∧ ans2.toFinset = ([0, 2] : List ℕ).toFinset :=
  toggleQuizAnswer_involutive _ "m1" "l1" 0 1 [0, 2] rfl

/-! ## Claim C9 -/

/-- C9: the learner-side `toggleAnswer` preserves duplicate-freedom — if
every stored selection list is duplicate-free then so is every list after
toggling any (question, option) pair (the option is removed if present and
appended once if absent), and a question with no prior entry is treated as
the empty selection, so toggling it stores exactly `[oIdx]`. -/
theorem toggleAnswer_preserves_nodup (prev : ℕ → Option (List ℕ))
    (qIdx oIdx : ℕ)
    (h : ∀ i l, prev i = some l → l.Nodup) :
    (∀ i l, toggleAnswer false prev qIdx oIdx i = some l → l.Nodup)
    ∧ (prev qIdx = none →
        toggleAnswer false prev qIdx oIdx qIdx = some [oIdx]) := by
  constructor
  · intro i l hl
    unfold toggleAnswer at hl
    simp only [Bool.false_eq_true, if_false] at hl
    by_cases hi : i = qIdx
    · subst hi
      rw [if_pos rfl] at hl
      have hcur : ((prev i).getD []).Nodup := by
        cases hp : prev i with
        | none => simp
        | some cur => simpa using h i cur hp
      have := toggleIndexList_nodup ((prev i).getD []) oIdx hcur
      injection hl with hl2
      rw [← hl2]
      exact this
    · rw [if_neg hi] at hl
      exact h i l hl
  · intro hnone
    unfold toggleAnswer
    simp only [Bool.false_eq_true, if_false, if_pos rfl, hnone]
    unfold toggleIndexList
    simp

/-- Witness for C9: starting from an empty record (all selections trivially
duplicate-free), toggling (0, 1) stores exactly `[1]`, which is
duplicate-free. -/
theorem toggleAnswer_preserves_nodup_witness :
    toggleAnswer false (fun _ => none) 0 1 0 = some [1]
    ∧ ∀ i l, toggleAnswer false (fun _ => none) 0 1 i = some l → l.Nodup :=
  ⟨(toggleAnswer_preserves_nodup (fun _ => none) 0 1
      (fun _ _ hl => by cases hl)).2 rfl,
    (toggleAnswer_preserves_nodup (fun _ => none) 0 1
      (fun _ _ hl => by cases hl)).1⟩

/-! ## Claim C10 -/

/-- C10: `addQuizQuestion` appends exactly one new question at the end of the
addressed lesson's quiz (creating the sequence when absent) with exactly two
options and `correctAnswers = [0]`, leaving the existing questions and every
other lesson field unchanged; the appended question satisfies the data-model
invariant (at least two options, every correct index below the option
count). -/
theorem addQuizQuestion_appends (course : Course) (mid lid : String)
    (l : Lesson) (h : findLesson course mid lid = some l) :
    findLesson (addQuizQuestion course mid lid) mid lid
        = some { l with quiz := some (l.quiz.getD [] ++ [newQuizQuestion]) }
    ∧ newQuizQuestion.options.length = 2
    ∧ newQuizQuestion.correctAnswers = [0]
    ∧ (∀ i ∈ newQuizQuestion.correctAnswers,
        i < newQuizQuestion.options.length) := by
  refine ⟨?_, rfl, rfl, by decide⟩
  unfold addQuizQuestion
  exact findLesson_setLessonPayload course mid lid
    (fun l => { l with quiz := some (l.quiz.getD [] ++ [newQuizQuestion]) })
    (fun _ => rfl) l h

/-- Witness for C10: adding a question to a concrete lesson with one existing
question appends the fresh two-option question at the end. -/
theorem addQuizQuestion_appends_witness :
    findLesson
        (addQuizQuestion
          ⟨"c1", "T", "D", none,
            [⟨"m1", "M", [⟨"l1", "L", "", .quiz, none, none,
              some [⟨"Q", ["a", "b"], [1]⟩], none⟩]⟩],
            none⟩
          "m1" "l1") "m1" "l1"
      = some ⟨"l1", "L", "", .quiz, none, none,
          some [⟨"Q", ["a", "b"], [1]⟩, newQuizQuestion], none⟩
    ∧ newQuizQuestion.options.length = 2 :=
  ⟨(addQuizQuestion_appends
      ⟨"c1", "T", "D", none,
        [⟨"m1", "M", [⟨"l1", "L", "", .quiz, none, none,
          some [⟨"Q", ["a", "b"], [1]⟩], none⟩]⟩],
        none⟩
      "m1" "l1"
      ⟨"l1", "L", "", .quiz, none, none,
        some [⟨"Q", ["a", "b"], [1]⟩], none⟩ rfl).1,
    (addQuizQuestion_appends
      ⟨"c1", "T", "D", none,
        [⟨"m1", "M", [⟨"l1", "L", "", .quiz, none, none,
          some [⟨"Q", ["a", "b"], [1]⟩], none⟩]⟩],
        none⟩
      "m1" "l1"
      ⟨"l1", "L", "", .quiz, none, none,
        some [⟨"Q", ["a", "b"], [1]⟩], none⟩ rfl).2.1⟩

/-! ## Helper lemmas for the playback controller -/

lemma PlayerInv_of_active_nil (st : PlayerState) (h : st.active = []) :
    PlayerInv st := by
  constructor
  · rw [h]; simp
  · intro c hc
    rw [h] at hc
    simp at hc

lemma PlayerInv_of_single (st : PlayerState) (c : String)
    (h : st.active = [c]) (h2 : st.audioSourceRef = some c) : PlayerInv st := by
  constructor
  · rw [h]; simp
  · intro d hd
    rw [h] at hd
    rw [List.mem_singleton] at hd
    subst hd
    exact h2

lemma stopAudio_active_nil (s : PlayerState) (hinv : PlayerInv s) :
    (stopAudio s).active = [] := by
  obtain ⟨hlen, hall⟩ := hinv
  unfold stopAudio
  cases href : s.audioSourceRef with
  | none =>
      show s.active = []
      cases hact : s.active with
      | nil => rfl
      | cons a t =>
          have ha := hall a (by rw [hact]; exact List.mem_cons_self a t)
          rw [href] at ha
          cases ha
  | some clip =>
      show s.active.erase clip = []
      cases hact : s.active with
      | nil => simp [hact]
      | cons a t =>
          have ha := hall a (by rw [hact]; exact List.mem_cons_self a t)
          rw [href] at ha
          injection ha with hac
          have ht : t = [] := by
            rw [hact] at hlen
            simp only [List.length_cons] at hlen
            have h0 : t.length = 0 := by omega
            exact List.eq_nil_of_length_eq_zero h0
          subst ht
          rw [hac]
          simp

/-! ## Claim C8 -/

/-- C8: the playback controller holds at most one active source in every
invariant-respecting state — `stopAudio` releases the current clip (leaving
none active) and is a no-op when nothing is referenced, `toggleAudio`
preserves the invariant and, on the start path, stops the old clip before the
new source starts so that exactly the new clip is active, and a natural end
also preserves the invariant. -/
theorem playback_exclusive (s : PlayerState) (hasAudio decodeOk : Bool)
    (newClip endedClip : String) (hinv : PlayerInv s) :
    PlayerInv (stopAudio s)
    ∧ (stopAudio s).active = []
    ∧ (s.audioSourceRef = none → stopAudio s = s)
    ∧ PlayerInv (toggleAudio s hasAudio decodeOk newClip)
    ∧ (s.isPlaying = false → hasAudio = true → decodeOk = true →
        (toggleAudio s hasAudio decodeOk newClip).active = [newClip])
    ∧ PlayerInv (onEnded s endedClip) := by
  have hstop := stopAudio_active_nil s hinv
  refine ⟨PlayerInv_of_active_nil _ hstop, hstop, ?_, ?_, ?_, ?_⟩
  · intro hnone
    unfold stopAudio
    rw [hnone]
  · unfold toggleAudio
    by_cases hp : s.isPlaying = true
    · rw [if_pos hp]
      exact PlayerInv_of_active_nil _ hstop
    · rw [if_neg hp]
      cases hA : hasAudio with
      | false => simpa using hinv
      | true =>
          cases hd : decodeOk with
          | false => simpa using hinv
          | true =>
              simp only [Bool.not_true, Bool.false_eq_true, if_false]
              apply PlayerInv_of_single _ newClip
              · show (stopAudio s).active ++ [newClip] = [newClip]
                rw [hstop]
                rfl
              · rfl
  · intro hp hA hd
    subst hA hd
    unfold toggleAudio
    rw [if_neg (by rw [hp]; simp)]
    simp only [Bool.not_true, Bool.false_eq_true, if_false]
    show (stopAudio s).active ++ [newClip] = [newClip]
    rw [hstop]
    rfl
  · obtain ⟨hlen, hall⟩ := hinv
    constructor
    · show (s.active.erase endedClip).length ≤ 1
      calc (s.active.erase endedClip).length
          ≤ s.active.length := (s.active.erase_sublist endedClip).length_le
        _ ≤ 1 := hlen
    · intro c hc
      have hmem : c ∈ s.active := List.mem_of_mem_erase hc
      exact hall c hmem

/-- Witness for C8: stopping a playing clip leaves nothing active, and
starting a clip from idle activates exactly that clip. -/
theorem playback_exclusive_witness :
    (stopAudio ⟨true, ["a"], some "a"⟩).active = []
    ∧ (toggleAudio ⟨false, [], none⟩ true true "b").active = ["b"] :=
  ⟨(playback_exclusive ⟨true, ["a"], some "a"⟩ true true "b" "a"
      (by constructor
          · simp
          · intro c hc
            simp at hc
            subst hc
            rfl)).2.1,
    (playback_exclusive ⟨false, [], none⟩ true true "b" "a"
      (by constructor
          · simp
          · intro c hc
            simp at hc)).2.2.2.2.1 rfl rfl rfl⟩
